import Mathlib

/-!
Verification of the Constellations ingestion pipeline
(`src/pipeline`), as a shallow embedding in Lean 4.

The embedding models:
* the Python string primitives used by the pipeline (`str.split("\n")`,
  `"\n".join`, `str.strip`), at the level of character lists;
* `markdown.py`: `_split_pdf_into_chunks`, the empty-result
  normalisation of `_convert_chunk`, and the quality gate and
  index-order reassembly of `convert_pdf_to_markdown`;
* `densify.py`: `_split_by_headers`, `_densify_section`,
  `process_section` and `densify_markdown`;
* `ingest.py`: the `ingest` status guard and `_run_pipeline`
  stage sequencing, with the external collaborators (download,
  Gemini calls, Supabase, Supermemory) abstracted as oracles;
* `store.py` / `ingest.py`: the append-if-absent constellation
  tagging of the Supermemory metadata.

`asyncio.gather` over index-addressed tasks is modelled by an explicit
schedule: tasks complete in an arbitrary permutation `perm` of the task
indices, each completion writes its result into the slot addressed by
its own index, and after the fan-in barrier the slots are read in index
order.
-/

namespace Constellations

/-! ### Python string primitives -/

/-- Whitespace as recognised by the Python `str.strip()` and the regex
class `\s` (ASCII part; the markdown of this pipeline never exercises the
non-ASCII Unicode space characters). -/
def pyIsSpace (c : Char) : Bool :=
  c = ' ' || c = '\t' || c = '\n' || c = '\r' || c = '\x0b' || c = '\x0c'

/-- Python `str.strip()`: drop whitespace from both ends. -/
def pyStrip (s : String) : String :=
  String.mk (((s.data.dropWhile pyIsSpace).reverse.dropWhile pyIsSpace).reverse)

/-- Python `s.split("\n")` at the character level: splitting an empty
string yields `[""]`, and every separator occurrence produces a field. -/
def pySplitAux : List Char → List String
  | [] => [""]
  | c :: rest =>
    if c = '\n' then "" :: pySplitAux rest
    else
      match pySplitAux rest with
      | [] => [String.mk [c]]
      | p :: tail => String.mk (c :: p.data) :: tail

/-- Python `s.split("\n")`. -/
def pySplitLines (s : String) : List String :=
  pySplitAux s.data

/-- Python `sep.join(parts)`. -/
def pyJoin (sep : String) : List String → String
  | [] => ""
  | [x] => x
  | x :: rest => x ++ sep ++ pyJoin sep rest

theorem pySplitAux_ne_nil (cs : List Char) : pySplitAux cs ≠ [] := by
  induction cs with
  | nil => simp [pySplitAux]
  | cons c rest ih =>
    simp only [pySplitAux]
    split
    · simp
    · cases h : pySplitAux rest with
      | nil => simp
      | cons p tail => simp

theorem pyJoin_cons_ne (sep : String) (x : String) (rest : List String)
    (h : rest ≠ []) : pyJoin sep (x :: rest) = x ++ sep ++ pyJoin sep rest := by
  cases rest with
  | nil => exact absurd rfl h
  | cons y t => rfl

/-- Joining with newline is a left inverse of `split("\n")` (data level). -/
theorem data_pyJoin_pySplitAux (cs : List Char) :
    (pyJoin "\n" (pySplitAux cs)).data = cs := by
  induction cs with
  | nil => rfl
  | cons c rest ih =>
    by_cases hc : c = '\n'
    · subst hc
      have h1 : pySplitAux ('\n' :: rest) = "" :: pySplitAux rest := by
        simp [pySplitAux]
      rw [h1, pyJoin_cons_ne _ _ _ (pySplitAux_ne_nil rest)]
      simp [String.data_append, ih]
    · have h1 : pySplitAux (c :: rest) =
          match pySplitAux rest with
          | [] => [String.mk [c]]
          | p :: tail => String.mk (c :: p.data) :: tail := by
        simp [pySplitAux, hc]
      cases h : pySplitAux rest with
      | nil => exact absurd h (pySplitAux_ne_nil rest)
      | cons p tail =>
        rw [h] at h1 ih
        cases tail with
        | nil =>
          simp only [pyJoin] at ih ⊢
          rw [h1]
          simp only [pyJoin]
          rw [← ih]
        | cons q t =>
          rw [pyJoin_cons_ne _ _ _ (by simp)] at ih
          rw [h1, pyJoin_cons_ne _ _ _ (by simp)]
          simp only [String.data_append] at ih ⊢
          simp [← ih]

theorem pyJoin_pySplitLines (s : String) :
    pyJoin "\n" (pySplitLines s) = s := by
  apply String.ext
  exact data_pyJoin_pySplitAux s.data

/-! ### Scheduler model for `asyncio.gather`

`asyncio.gather(*(task(i) for i in range(n)))` dispatches one task per
input index and returns the results in input index order.  We model a
run of the event loop by the order `order` in which the tasks complete:
each completion writes its result into the slot addressed by its own
index, and after all tasks have resolved the slots are read in index
order. -/

/-- Execute a completion schedule: fold over the completion order,
writing the result of each task into the slot addressed by its index. -/
def execSchedule (task : Nat → α) (order : List Nat) : Nat → Option α :=
  order.foldl (fun slots i => fun j => if j = i then some (task i) else slots j)
    (fun _ => none)

/-- Read slots `0, …, n-1` in index order after the fan-in barrier. -/
def readSlots (slots : Nat → Option α) (d : α) (n : Nat) : List α :=
  (List.range n).map (fun i => (slots i).getD d)

theorem execSchedule_foldl (task : Nat → α) (order : List Nat)
    (slots : Nat → Option α) (j : Nat) :
    order.foldl (fun s i => fun k => if k = i then some (task i) else s k) slots j
      = if j ∈ order then some (task j) else slots j := by
  induction order generalizing slots with
  | nil => simp
  | cons i rest ih =>
    simp only [List.foldl_cons, ih, List.mem_cons]
    by_cases hj : j ∈ rest
    · simp [hj]
    · by_cases hji : j = i
      · subst hji; simp [hj]
      · simp [hj, hji]

theorem execSchedule_eq (task : Nat → α) (order : List Nat) (j : Nat) :
    execSchedule task order j = if j ∈ order then some (task j) else none :=
  execSchedule_foldl task order _ j

/-- The fan-in barrier erases the completion order: for any completion
order that is a permutation of the task indices, reading the slots in
index order returns exactly the per-index results. -/
theorem readSlots_execSchedule (task : Nat → α) (d : α) (n : Nat)
    (order : List Nat) (h : order.Perm (List.range n)) :
    readSlots (execSchedule task order) d n = (List.range n).map task := by
  unfold readSlots
  apply List.map_congr_left
  intro i hi
  rw [execSchedule_eq]
  have : i ∈ order := h.mem_iff.mpr hi
  simp [this]

/-! ### `markdown.py`: chunk splitting, conversion, quality gate

The PDF is abstracted as its list of pages. -/

/-- Embedding of `_split_pdf_into_chunks`: contiguous groups of `pagesPerChunk`
pages (`for start in range(0, total_pages, pages_per_chunk)` with
`end = min(start + pages_per_chunk, total_pages)`). -/
def splitPdfIntoChunks (pages : List α) (pagesPerChunk : Nat) : List (List α) :=
  if h : pages.length = 0 ∨ pagesPerChunk = 0 then []
  else
    pages.take pagesPerChunk ::
      splitPdfIntoChunks (pages.drop pagesPerChunk) pagesPerChunk
termination_by pages.length
decreasing_by
  push_neg at h
  obtain ⟨hne, hk⟩ := h
  simp only [List.length_drop]
  omega

/-- Result normalisation done by `_convert_chunk`: `response.text` that is
`None` or whitespace-only becomes the empty string (a soft failure);
otherwise the stripped text is returned. -/
def convertChunkResult (raw : Option String) : String :=
  match raw with
  | none => ""
  | some r => if pyStrip r = "" then "" else pyStrip r

/-- Embedding of `empty_count = sum(1 for r in results if not r)`. -/
def emptyCount (results : List String) : Nat :=
  (results.filter (fun r => r = "")).length

/-- The tail of `convert_pdf_to_markdown` after all chunks resolve:
the data-quality gate (`empty_count > len(results) // 2` raises) and
the index-order reassembly of the non-empty results. -/
def convertAssemble (results : List String) : Except String String :=
  if emptyCount results > results.length / 2 then
    Except.error "Too many empty chunks"
  else
    Except.ok (pyJoin "\n\n" (results.filter (fun r => r ≠ "")))

/-- Deterministic per-chunk results in input index order, as produced
by `asyncio.gather` over `enumerate(chunks)`; `raw i` models the
Gemini response text for chunk `i`. -/
def convertResults (raw : Nat → Option String) (n : Nat) : List String :=
  (List.range n).map (fun i => convertChunkResult (raw i))

/-- The per-chunk results as assembled by an explicit completion
schedule `order` (which chunk call finishes first, second, …). -/
def convertResultsSched (order : List Nat) (raw : Nat → Option String)
    (n : Nat) : List String :=
  readSlots (execSchedule (fun i => convertChunkResult (raw i)) order) "" n

/-- Embedding of `convert_pdf_to_markdown`, with the external world abstracted:
`key` is `GEMINI_API_KEY` (`none` = unset/empty), `raw` the Gemini
response oracle, `pages` the pages of the PDF.  Returns the stage outcome
and the list of chunk indices sent to the conversion capability. -/
def convert_pdf_to_markdown (key : Option String) (raw : Nat → Option String)
    (pages : List α) : Except String String × List Nat :=
  match key with
  | none => (Except.error "No GEMINI_API_KEY set, cannot convert PDF", [])
  | some _ =>
    let chunks := splitPdfIntoChunks pages 5
    (convertAssemble (convertResults raw chunks.length),
      List.range chunks.length)

theorem splitPdfIntoChunks_nil (k : Nat) :
    splitPdfIntoChunks ([] : List α) k = [] := by
  unfold splitPdfIntoChunks
  simp

theorem splitPdfIntoChunks_cons (pages : List α) (k : Nat)
    (hp : pages ≠ []) (hk : k ≠ 0) :
    splitPdfIntoChunks pages k =
      pages.take k :: splitPdfIntoChunks (pages.drop k) k := by
  conv_lhs => unfold splitPdfIntoChunks
  have : ¬(pages.length = 0 ∨ k = 0) := by
    push_neg
    exact ⟨fun h => hp (List.length_eq_zero.mp h), hk⟩
  rw [dif_neg this]

/-- Chunking preserves the whole document: no overlap, no gaps. -/
theorem splitPdfIntoChunks_flatten (pages : List α) (k : Nat) (hk : 0 < k) :
    (splitPdfIntoChunks pages k).flatten = pages := by
  by_cases hp : pages = []
  · subst hp; simp [splitPdfIntoChunks_nil]
  · have hlt : (pages.drop k).length < pages.length := by
      have : 0 < pages.length := List.length_pos.mpr hp
      simp only [List.length_drop]
      omega
    rw [splitPdfIntoChunks_cons pages k hp (Nat.pos_iff_ne_zero.mp hk)]
    rw [List.flatten_cons]
    rw [splitPdfIntoChunks_flatten (pages.drop k) k hk]
    exact List.take_append_drop k pages
termination_by pages.length

/-! ### `densify.py`: header splitting, per-section densification -/

/-- Embedding of `re.match(r"^#{1,2}\s+", line)`: one or two leading `#` followed
by at least one whitespace character. -/
def isHeaderLine (line : String) : Bool :=
  match line.data with
  | '#' :: '#' :: c :: _ => pyIsSpace c
  | '#' :: c :: _ => pyIsSpace c
  | _ => false

/-- The loop body of `_split_by_headers`, carrying the pending
`current_header` and `current_body` lines.  A pending section is
flushed (with its body joined and stripped) when a header line is
met or at end of input, and only when header or body is non-empty
(Python truthiness of `current_header or current_body`). -/
def splitByHeadersAux (h : String) (b : List String) :
    List String → List (String × String)
  | [] =>
    if h ≠ "" ∨ b ≠ [] then [(h, pyStrip (pyJoin "\n" b))] else []
  | line :: rest =>
    if isHeaderLine line then
      if h ≠ "" ∨ b ≠ [] then
        (h, pyStrip (pyJoin "\n" b)) :: splitByHeadersAux line [] rest
      else splitByHeadersAux line [] rest
    else splitByHeadersAux h (b ++ [line]) rest

/-- Embedding of `_split_by_headers`: split markdown into `(header, body)` pairs at
`#`/`##` header lines; bodies are newline-joined and stripped. -/
def splitByHeaders (markdown : String) : List (String × String) :=
  splitByHeadersAux "" [] (pySplitLines markdown)

/-- Embedding of `section_text = f"\x7bheader\x7d\n\x7bbody\x7d" if header else body`. -/
def sectionText (h b : String) : String :=
  if h ≠ "" then h ++ "\n" ++ b else b

/-- Embedding of `_densify_section`: the Gemini call either raises (`Except.error`)
or yields `response.text` (`none` models a `None` text); a non-empty
stripped result is returned, anything else falls back to the original
section text.  The stage-level guarantee is that this function is
total: a per-section failure never escapes. -/
def densifySection (call : Except String (Option String)) (h b : String) :
    String :=
  match call with
  | Except.error _ => sectionText h b
  | Except.ok none => sectionText h b
  | Except.ok (some r) =>
      if pyStrip r ≠ "" then pyStrip r else sectionText h b

/-- Embedding of `process_section`: a body shorter than 100 characters is returned
as-is (header intact) without touching the semaphore or Gemini. -/
def processSection (call : Except String (Option String)) (h b : String) :
    String :=
  if b.length < 100 then
    (if h ≠ "" then h ++ "\n" ++ b else b)
  else densifySection call h b

/-- The task dispatched for position `i` of the section list;
`call i` models the Gemini response for section `i`. -/
def processSectionAt (call : Nat → Except String (Option String))
    (sections : List (String × String)) (i : Nat) : String :=
  match sections[i]? with
  | some (h, b) => processSection (call i) h b
  | none => ""

/-- Deterministic per-section results in input index order, as
produced by `asyncio.gather` over the section list. -/
def densifyResults (call : Nat → Except String (Option String))
    (sections : List (String × String)) : List String :=
  (List.range sections.length).map (processSectionAt call sections)

/-- The section indices whose bodies actually reach the compression
capability (the `len(body) < 100` test fails). -/
def densifyCalls (sections : List (String × String)) : List Nat :=
  (List.range sections.length).filter (fun i =>
    match sections[i]? with
    | some (_, b) => 100 ≤ b.length
    | none => false)

/-- The per-section results as assembled by an explicit completion
schedule `order`. -/
def densifyResultsSched (order : List Nat)
    (call : Nat → Except String (Option String))
    (sections : List (String × String)) : List String :=
  readSlots (execSchedule (processSectionAt call sections) order) ""
    sections.length

/-- Embedding of `densify_markdown`: no API key means a no-op passthrough; no
sections likewise; otherwise the gathered per-section results are
joined with a blank line. -/
def densify_markdown (key : Option String)
    (call : Nat → Except String (Option String)) (markdown : String) :
    String :=
  match key with
  | none => markdown
  | some _ =>
    let sections := splitByHeaders markdown
    if sections = [] then markdown
    else pyJoin "\n\n" (densifyResults call sections)

/-! ### `ingest.py`: status guard and stage sequencing -/

/-- Status column of `paper_documents`. -/
inductive Status where
  | pending
  | downloading
  | converting
  | densifying
  | complete
  | failed
deriving DecidableEq, Repr

/-- The JSON `status` field returned by `POST /ingest`. -/
inductive Outcome where
  | started
  | in_progress
  | already_complete
  | skipped
deriving DecidableEq, Repr

/-- The database write the `ingest` handler performs before returning. -/
inductive RecordWrite where
  | insertPending
  | resetPending
deriving DecidableEq, Repr

/-- The externally visible effects of one `POST /ingest` call:
the returned outcome, whether `_run_pipeline` was scheduled, the
record write (if any), and whether `_tag_constellation` was
scheduled. -/
structure IngestEffects where
  outcome : Outcome
  pipelineStarted : Bool
  recordWrite : Option RecordWrite
  tagScheduled : Bool
deriving DecidableEq, Repr

/-- The `ingest` handler: `arxivId` is `req.arxiv_id or
extract_arxiv_id(req.paper_url)` (`none` when no identifier can be
derived), and `existing` the status of the stored record, if one
exists. -/
def ingest (arxivId : Option String) (existing : Option Status) :
    IngestEffects :=
  match arxivId with
  | none => ⟨Outcome.skipped, false, none, false⟩
  | some _ =>
    match existing with
    | some st =>
      if st = Status.complete then
        ⟨Outcome.already_complete, false, none, true⟩
      else if st = Status.downloading ∨ st = Status.converting ∨
          st = Status.densifying then
        ⟨Outcome.in_progress, false, none, false⟩
      else
        ⟨Outcome.started, true, some RecordWrite.resetPending, false⟩
    | none => ⟨Outcome.started, true, some RecordWrite.insertPending, false⟩

/-- Embedding of `_run_pipeline`, with each stage abstracted as an oracle:
`download` the result of `download_pdf`, `convert` of
`convert_pdf_to_markdown`, `densifyStage` of `densify_markdown`
(an `Except` so that an unexpected stage-level exception can be
modelled), `store` of `save_results` (which itself writes
`complete`).  Returns the sequence of status writes and the stored
`(markdown, densified_markdown)` pair, if any. -/
def runPipeline (download : Except String P)
    (convert : P → Except String String)
    (densifyStage : String → Except String String)
    (store : String → String → Except String Unit) :
    List Status × Option (String × String) :=
  match download with
  | Except.error _ => ([Status.downloading, Status.failed], none)
  | Except.ok pdf =>
    match convert pdf with
    | Except.error _ =>
      ([Status.downloading, Status.converting, Status.failed], none)
    | Except.ok md =>
      let densified :=
        match densifyStage md with
        | Except.ok d => d
        | Except.error _ => md
      match store md densified with
      | Except.error _ =>
        ([Status.downloading, Status.converting, Status.densifying,
          Status.failed], none)
      | Except.ok _ =>
        ([Status.downloading, Status.converting, Status.densifying,
          Status.complete], some (md, densified))

/-! ### `store.py` / `ingest.py`: constellation tagging

Both `save_results` and `_tag_constellation` update the Supermemory
document metadata field `constellation_ids` with the same append-if-absent step:
`if constellation_id not in ids: ids.append(constellation_id)`. -/

/-- One tagging request applied to the stored `constellation_ids`. -/
def applyTag (ids : List String) (gid : String) : List String :=
  if gid ∈ ids then ids else ids ++ [gid]

/-- Iterated tagging: `n` successive tagging requests for the same `gid`. -/
def applyTagN (n : Nat) (ids : List String) (gid : String) : List String :=
  match n with
  | 0 => ids
  | Nat.succ m => applyTag (applyTagN m ids gid) gid

/-! ### Analysis of `_split_by_headers`

`groupRawAux` is the same loop as `splitByHeadersAux` but keeps each
body of each section as its raw list of lines, without joining and
stripping.  It lets us state exactly what information the splitter
keeps and what it destroys. -/

/-- The `_split_by_headers` loop, retaining raw body lines. -/
def groupRawAux (h : String) (b : List String) :
    List String → List (String × List String)
  | [] => if h ≠ "" ∨ b ≠ [] then [(h, b)] else []
  | line :: rest =>
    if isHeaderLine line then
      if h ≠ "" ∨ b ≠ [] then
        (h, b) :: groupRawAux line [] rest
      else groupRawAux line [] rest
    else groupRawAux h (b ++ [line]) rest

/-- The blocks of a document: raw-line version of `splitByHeaders`. -/
def groupRaw (lines : List String) : List (String × List String) :=
  groupRawAux "" [] lines

/-- What the splitter does to one raw block. -/
def stripBlock (p : String × List String) : String × String :=
  (p.1, pyStrip (pyJoin "\n" p.2))

/-- The lines a raw block stands for (header line included). -/
def blockLines (p : String × List String) : List String :=
  if p.1 = "" then p.2 else p.1 :: p.2

/-- Concatenation of one split section, headers inclusive. -/
def sectionToText (p : String × String) : String :=
  if p.1 = "" then p.2
  else if p.2 = "" then p.1
  else p.1 ++ "\n" ++ p.2

/-- Concatenation of all split sections in order, headers inclusive,
sections joined by single newlines. -/
def reconstructSections (sections : List (String × String)) : String :=
  pyJoin "\n" (sections.map sectionToText)

theorem splitByHeadersAux_eq_groupRawAux (lines : List String) :
    ∀ h b, splitByHeadersAux h b lines
      = (groupRawAux h b lines).map stripBlock := by
  induction lines with
  | nil =>
    intro h b
    simp only [splitByHeadersAux, groupRawAux]
    split
    · simp [stripBlock]
    · simp
  | cons line rest ih =>
    intro h b
    simp only [splitByHeadersAux, groupRawAux]
    split
    · split
      · simp [ih, stripBlock]
      · exact ih _ _
    · exact ih _ _

theorem blockLines_append_line (h : String) (b : List String) (line : String) :
    blockLines (h, b ++ [line]) = blockLines (h, b) ++ [line] := by
  unfold blockLines
  by_cases hh : h = "" <;> simp [hh]

theorem groupRawAux_blockLines (lines : List String) :
    ∀ h b, ((groupRawAux h b lines).map blockLines).flatten
      = (if h = "" ∧ b = [] then [] else blockLines (h, b)) ++ lines := by
  induction lines with
  | nil =>
    intro h b
    simp only [groupRawAux]
    by_cases hg : h = "" ∧ b = []
    · rw [if_neg, if_pos hg]
      · simp
      · push_neg
        exact hg
    · rw [if_pos, if_neg hg]
      · simp
      · rw [Decidable.not_and_iff_or_not] at hg
        rcases hg with hg | hg
        · exact Or.inl hg
        · exact Or.inr hg
  | cons line rest ih =>
    intro h b
    simp only [groupRawAux]
    by_cases hl : isHeaderLine line
    · rw [if_pos hl]
      have hline : line ≠ "" := by
        intro hc
        rw [hc] at hl
        simp [isHeaderLine] at hl
      by_cases hg : h = "" ∧ b = []
      · rw [if_neg, if_pos hg]
        · rw [ih]
          rw [if_neg (fun hc => hline hc.1)]
          simp [blockLines, hline]
        · push_neg
          exact hg
      · rw [if_pos, if_neg hg]
        · simp only [List.map_cons, List.flatten_cons]
          rw [ih]
          rw [if_neg (fun hc => hline hc.1)]
          simp [blockLines, hline]
        · rw [Decidable.not_and_iff_or_not] at hg
          rcases hg with hg | hg
          · exact Or.inl hg
          · exact Or.inr hg
    · rw [if_neg hl, ih]
      have : ¬(h = "" ∧ b ++ [line] = []) := by
        intro hc
        simpa using hc.2
      rw [if_neg this]
      by_cases hg : h = "" ∧ b = []
      · rw [if_pos hg]
        simp [blockLines, hg.1, hg.2]
      · rw [if_neg hg, blockLines_append_line]
        simp

/-- Every block the splitter emits has a non-empty header or a
non-empty body. -/
theorem groupRawAux_mem_guard (lines : List String) :
    ∀ h b p, p ∈ groupRawAux h b lines → ¬(p.1 = "" ∧ p.2 = []) := by
  induction lines with
  | nil =>
    intro h b p hp
    simp only [groupRawAux] at hp
    split at hp
    · rename_i hg
      simp at hp
      subst hp
      simp only []
      intro hc
      rcases hg with hg | hg
      · exact hg hc.1
      · exact hg hc.2
    · simp at hp
  | cons line rest ih =>
    intro h b p hp
    simp only [groupRawAux] at hp
    split at hp
    · split at hp
      · rename_i hg
        rcases List.mem_cons.mp hp with hp | hp
        · subst hp
          intro hc
          rcases hg with hg | hg
          · exact hg hc.1
          · exact hg hc.2
        · exact ih _ _ _ hp
      · exact ih _ _ _ hp
    · exact ih _ _ _ hp

theorem blockLines_ne_nil (p : String × List String)
    (hg : ¬(p.1 = "" ∧ p.2 = [])) : blockLines p ≠ [] := by
  unfold blockLines
  by_cases hh : p.1 = ""
  · rw [if_pos hh]
    intro hc
    exact hg ⟨hh, hc⟩
  · simp [hh]

/-- When the pending block is non-degenerate, it is emitted first,
with its body possibly extended. -/
theorem groupRawAux_head (lines : List String) :
    ∀ h b, (h ≠ "" ∨ b ≠ []) →
      ∃ b2 rest2, groupRawAux h b lines = (h, b ++ b2) :: rest2 := by
  induction lines with
  | nil =>
    intro h b hg
    refine ⟨[], [], ?_⟩
    simp [groupRawAux, hg]
  | cons line rest ih =>
    intro h b hg
    simp only [groupRawAux]
    by_cases hl : isHeaderLine line
    · rw [if_pos hl, if_pos hg]
      exact ⟨[], groupRawAux line [] rest, by simp⟩
    · rw [if_neg hl]
      obtain ⟨b2, rest2, heq⟩ := ih h (b ++ [line]) (Or.inr (by simp))
      exact ⟨[line] ++ b2, rest2, by rw [heq]; simp⟩

theorem pyJoin_append (sep : String) (xs ys : List String)
    (hx : xs ≠ []) (hy : ys ≠ []) :
    pyJoin sep (xs ++ ys) = pyJoin sep xs ++ sep ++ pyJoin sep ys := by
  induction xs with
  | nil => exact absurd rfl hx
  | cons x t ih =>
    cases t with
    | nil =>
      rw [List.singleton_append, pyJoin_cons_ne sep x ys hy]
      rfl
    | cons y t2 =>
      rw [List.cons_append,
        pyJoin_cons_ne sep x ((y :: t2) ++ ys) (by simp),
        pyJoin_cons_ne sep x (y :: t2) (by simp),
        ih (by simp)]
      simp [String.append_assoc]

theorem pyJoin_flatten (parts : List (List String))
    (hp : ∀ p ∈ parts, p ≠ []) :
    pyJoin "\n" (parts.map (pyJoin "\n")) = pyJoin "\n" parts.flatten := by
  induction parts with
  | nil => rfl
  | cons p t ih =>
    cases t with
    | nil => simp [pyJoin]
    | cons q t2 =>
      have hpne : p ≠ [] := hp p (by simp)
      have hqne : q ≠ [] := hp q (by simp)
      have hflat : (q :: t2).flatten ≠ [] := by
        simp only [List.flatten_cons]
        intro hc
        exact hqne (List.append_eq_nil.mp hc).1
      rw [List.map_cons,
        pyJoin_cons_ne "\n" _ _ (by simp),
        List.flatten_cons,
        pyJoin_append "\n" p (q :: t2).flatten hpne hflat,
        ih (fun r hr => hp r (by simp [hr]))]

theorem pyJoin_eq_empty (b : List String) (h : pyJoin "\n" b = "") :
    b = [] ∨ b = [""] := by
  cases b with
  | nil => exact Or.inl rfl
  | cons x t =>
    cases t with
    | nil =>
      simp only [pyJoin] at h
      exact Or.inr (by rw [h])
    | cons y t2 =>
      exfalso
      rw [pyJoin_cons_ne "\n" x (y :: t2) (by simp)] at h
      have := congrArg String.data h
      simp only [String.data_append] at this
      have hmem : '\n' ∈ (x ++ "\n" ++ pyJoin "\n" (y :: t2)).data := by
        simp [String.data_append]
      rw [h] at hmem
      simp at hmem

/-- The output of the splitter determines the text of one section exactly when
the raw body is strip-invariant and not a single empty line. -/
theorem sectionToText_stripBlock (p : String × List String)
    (hstrip : pyStrip (pyJoin "\n" p.2) = pyJoin "\n" p.2)
    (hnd : p.2 ≠ [""]) :
    sectionToText (stripBlock p) = pyJoin "\n" (blockLines p) := by
  obtain ⟨h, b⟩ := p
  simp only [stripBlock, sectionToText, blockLines] at *
  rw [hstrip]
  by_cases hh : h = ""
  · simp [hh]
  · rw [if_neg hh, if_neg hh]
    by_cases hb : pyJoin "\n" b = ""
    · rw [if_pos hb]
      rcases pyJoin_eq_empty b hb with hbn | hbn
      · subst hbn; rfl
      · exact absurd hbn hnd
    · rw [if_neg hb]
      have hbne : b ≠ [] := by
        intro hc
        subst hc
        exact hb rfl
      rw [pyJoin_cons_ne "\n" h b hbne]

/-! ### Supporting lemmas for the claim theorems -/

/-- Success of an `Except` as a boolean. -/
def exceptOk (e : Except String String) : Bool :=
  match e with
  | Except.ok _ => true
  | Except.error _ => false

theorem chunk_ne_nil (pages : List α) (k : Nat) (hk : 0 < k) :
    ∀ c ∈ splitPdfIntoChunks pages k, c ≠ [] := by
  by_cases hp : pages = []
  · subst hp
    simp [splitPdfIntoChunks_nil]
  · rw [splitPdfIntoChunks_cons pages k hp (Nat.pos_iff_ne_zero.mp hk)]
    intro c hc
    rcases List.mem_cons.mp hc with hc | hc
    · subst hc
      intro hnil
      rcases List.take_eq_nil_iff.mp hnil with h0 | h0
      · exact Nat.pos_iff_ne_zero.mp hk h0
      · exact hp h0
    · have hlt : (pages.drop k).length < pages.length := by
        have : 0 < pages.length := List.length_pos.mpr hp
        simp only [List.length_drop]
        omega
      exact chunk_ne_nil (pages.drop k) k hk c hc
termination_by pages.length

theorem count_applyTag (ids : List String) (gid : String)
    (h : ids.count gid ≤ 1) : (applyTag ids gid).count gid = 1 := by
  unfold applyTag
  by_cases hm : gid ∈ ids
  · rw [if_pos hm]
    have : 0 < ids.count gid := List.count_pos_iff.mpr hm
    omega
  · rw [if_neg hm]
    rw [List.count_append]
    rw [List.count_eq_zero.mpr hm]
    simp

theorem mem_applyTag (ids : List String) (gid : String) :
    gid ∈ applyTag ids gid := by
  unfold applyTag
  by_cases hm : gid ∈ ids
  · rwa [if_pos hm]
  · rw [if_neg hm]
    simp

theorem applyTag_of_mem (ids : List String) (gid : String)
    (h : gid ∈ ids) : applyTag ids gid = ids := by
  unfold applyTag
  rw [if_pos h]

theorem densifyResults_getElem (call : Nat → Except String (Option String))
    (sections : List (String × String)) (i : Nat) (hi : i < sections.length) :
    (densifyResults call sections)[i]? = some (processSectionAt call sections i) := by
  unfold densifyResults
  rw [List.getElem?_map]
  rw [List.getElem?_range hi]
  rfl

theorem processSectionAt_eq (call : Nat → Except String (Option String))
    (sections : List (String × String)) (i : Nat) (h b : String)
    (hi : sections[i]? = some (h, b)) :
    processSectionAt call sections i = processSection (call i) h b := by
  unfold processSectionAt
  rw [hi]

/-! ### Claim theorems -/

/-- C8: `_split_pdf_into_chunks` produces contiguous chunks that
together preserve the total content with no overlap and no gaps
(their in-order concatenation is the page list and no chunk is
empty), and a non-empty document with fewer pages than
`pages_per_chunk` yields exactly one chunk. -/
theorem chunking_no_gaps_no_overlap (pages : List α) (k : Nat)
    (hk : 0 < k) :
    (splitPdfIntoChunks pages k).flatten = pages
    ∧ (∀ c ∈ splitPdfIntoChunks pages k, c ≠ [])
    ∧ (0 < pages.length → pages.length < k →
        splitPdfIntoChunks pages k = [pages]) := by
  refine ⟨splitPdfIntoChunks_flatten pages k hk, chunk_ne_nil pages k hk, ?_⟩
  intro hpos hlt
  have hp : pages ≠ [] := by
    intro hc
    subst hc
    simp at hpos
  rw [splitPdfIntoChunks_cons pages k hp (Nat.pos_iff_ne_zero.mp hk)]
  rw [List.take_of_length_le (Nat.le_of_lt hlt)]
  rw [List.drop_eq_nil_of_le (Nat.le_of_lt hlt)]
  rw [splitPdfIntoChunks_nil]

theorem chunking_no_gaps_no_overlap_witness :
    (splitPdfIntoChunks [10, 20, 30] 5).flatten = [10, 20, 30]
    ∧ splitPdfIntoChunks [10, 20, 30] 5 = [[10, 20, 30]] := by
  refine ⟨(chunking_no_gaps_no_overlap [10, 20, 30] 5 (by decide)).1, ?_⟩
  exact (chunking_no_gaps_no_overlap [10, 20, 30] 5 (by decide)).2.2
    (by decide) (by decide)

/-- C2 (amended): the conversion quality gate raises exactly when the
number of empty chunk results strictly exceeds half the total count
(`2 * empty > total`), and otherwise succeeds with the non-empty
results concatenated; with 5 chunks, 2 empty results succeed and
3 empty results raise.  An exact-half count of empty results (even
totals) succeeds: the boundary rounds toward success. -/
theorem convert_gate_strict_majority (results : List String) :
    (exceptOk (convertAssemble results) = false
      ↔ 2 * emptyCount results > results.length)
    ∧ (2 * emptyCount results ≤ results.length →
        convertAssemble results
          = Except.ok (pyJoin "\n\n" (results.filter (fun r => r ≠ ""))))
    ∧ exceptOk (convertAssemble ["a", "b", "c", "", ""]) = true
    ∧ exceptOk (convertAssemble ["a", "b", "", "", ""]) = false := by
  have hiff : emptyCount results > results.length / 2
      ↔ 2 * emptyCount results > results.length := by
    omega
  refine ⟨?_, ?_, by decide, by decide⟩
  · unfold convertAssemble
    by_cases hgate : emptyCount results > results.length / 2
    · rw [if_pos hgate]
      constructor
      · intro _
        exact hiff.mp hgate
      · intro _
        rfl
    · rw [if_neg hgate]
      constructor
      · intro hc
        simp [exceptOk] at hc
      · intro hgt
        exact absurd (hiff.mpr hgt) hgate
  · intro hle
    unfold convertAssemble
    rw [if_neg]
    intro hgate
    exact absurd (hiff.mp hgate) (by omega)

theorem convert_gate_strict_majority_witness :
    (exceptOk (convertAssemble ["x", "y", ""]) = false
      ↔ 2 * emptyCount ["x", "y", ""] > (["x", "y", ""] : List String).length)
    ∧ convertAssemble ["x", "y", ""] = Except.ok "x\n\ny" := by
  refine ⟨(convert_gate_strict_majority ["x", "y", ""]).1, ?_⟩
  have h := (convert_gate_strict_majority ["x", "y", ""]).2.1 (by decide)
  simpa using h

/-- C2 counterexample to the claim as stated: with 4 chunks and
exactly half (2) of the results empty, the gate does NOT raise —
conversion succeeds, so an exact-half count rounds toward success,
not failure. -/
theorem convert_gate_exact_half_succeeds :
    convertAssemble ["", "", "a", "b"] = Except.ok "a\n\nb"
    ∧ 2 * emptyCount ["", "", "a", "b"]
        = (["", "", "a", "b"] : List String).length :=
  ⟨rfl, by decide⟩

/-- C3: submitting an identifier whose stored record status is
`downloading`, `converting` or `densifying` returns `in_progress`,
schedules no pipeline run, performs no record write, and schedules
no tagging task. -/
theorem ingest_guard_in_progress (id : String) (st : Status)
    (h : st = Status.downloading ∨ st = Status.converting ∨
      st = Status.densifying) :
    ingest (some id) (some st)
      = ⟨Outcome.in_progress, false, none, false⟩ := by
  rcases h with h | h | h <;> subst h <;> rfl

theorem ingest_guard_in_progress_witness :
    ingest (some "2301.00001") (some Status.converting)
      = ⟨Outcome.in_progress, false, none, false⟩ :=
  ingest_guard_in_progress "2301.00001" Status.converting
    (Or.inr (Or.inl rfl))

/-- C4: when the densification stage raises, `_run_pipeline`
substitutes the pre-densification markdown as the densified output,
continues to the Store stage, and the run reaches `complete` (it is
not marked `failed` because of the densification exception). -/
theorem pipeline_densify_failure_graceful {P : Type}
    (download : Except String P) (convert : P → Except String String)
    (densifyStage : String → Except String String)
    (store : String → String → Except String Unit)
    (pdf : P) (md e : String)
    (hd : download = Except.ok pdf)
    (hc : convert pdf = Except.ok md)
    (hz : densifyStage md = Except.error e)
    (hs : store md md = Except.ok ()) :
    runPipeline download convert densifyStage store
      = ([Status.downloading, Status.converting, Status.densifying,
          Status.complete], some (md, md)) := by
  subst hd
  simp [runPipeline, hc, hz, hs]

theorem pipeline_densify_failure_graceful_witness :
    runPipeline (Except.ok ()) (fun _ => Except.ok "MD")
        (fun _ => Except.error "densify boom")
        (fun _ _ => Except.ok ())
      = ([Status.downloading, Status.converting, Status.densifying,
          Status.complete], some ("MD", "MD")) :=
  pipeline_densify_failure_graceful (Except.ok ()) (fun _ => Except.ok "MD")
    (fun _ => Except.error "densify boom") (fun _ _ => Except.ok ())
    () "MD" "densify boom" rfl rfl rfl rfl

/-- C9: constellation tagging is idempotent.  Applying the tag update
twice equals applying it once, and after any positive number of
tagging requests a group id that occurred at most once occurs exactly
once in `constellation_ids`. -/
theorem tagging_idempotent (ids : List String) (gid : String) (n : Nat)
    (hcount : ids.count gid ≤ 1) (hn : 1 ≤ n) :
    applyTag (applyTag ids gid) gid = applyTag ids gid
    ∧ (applyTagN n ids gid).count gid = 1 := by
  refine ⟨applyTag_of_mem _ _ (mem_applyTag ids gid), ?_⟩
  induction n with
  | zero => omega
  | succ m ih =>
    cases Nat.eq_or_lt_of_le hn with
    | inl h1 =>
      have hm : m = 0 := by omega
      subst hm
      exact count_applyTag ids gid hcount
    | inr h1 =>
      have hm : 1 ≤ m := by omega
      have := ih hm
      simp only [applyTagN]
      exact count_applyTag _ _ (by omega)

theorem tagging_idempotent_witness :
    applyTag (applyTag ["g1"] "g2") "g2" = applyTag ["g1"] "g2"
    ∧ (applyTagN 3 ["g1"] "g2").count "g2" = 1 :=
  tagging_idempotent ["g1"] "g2" 3 (by decide) (by decide)

/-- C1: for every completion order of the concurrent chunk (resp.
section) tasks that is a permutation of the task indices, the
assembled output of ConversionStage and of DensificationStage equals
the deterministic blank-line-joined concatenation of the per-item
results in original input index order: the fan-in barrier makes the
output independent of completion order. -/
theorem fanin_output_independent_of_completion_order
    (orderC orderD : List Nat) (raw : Nat → Option String) (n : Nat)
    (call : Nat → Except String (Option String))
    (sections : List (String × String))
    (hC : orderC.Perm (List.range n))
    (hD : orderD.Perm (List.range sections.length)) :
    convertAssemble (convertResultsSched orderC raw n)
        = convertAssemble (convertResults raw n)
    ∧ pyJoin "\n\n" (densifyResultsSched orderD call sections)
        = pyJoin "\n\n" (densifyResults call sections) := by
  constructor
  · unfold convertResultsSched convertResults
    rw [readSlots_execSchedule _ _ _ _ hC]
  · unfold densifyResultsSched densifyResults
    rw [readSlots_execSchedule _ _ _ _ hD]

theorem fanin_output_independent_of_completion_order_witness :
    convertAssemble (convertResultsSched [2, 0, 1]
        (fun i => some (Nat.repr i)) 3)
      = convertAssemble (convertResults (fun i => some (Nat.repr i)) 3)
    ∧ pyJoin "\n\n" (densifyResultsSched [1, 0] (fun _ => Except.ok none)
        [("# A", "a"), ("# B", "b")])
      = pyJoin "\n\n" (densifyResults (fun _ => Except.ok none)
        [("# A", "a"), ("# B", "b")]) :=
  fanin_output_independent_of_completion_order [2, 0, 1] [1, 0]
    (fun i => some (Nat.repr i)) 3 (fun _ => Except.ok none)
    [("# A", "a"), ("# B", "b")] (by decide) (by decide)

/-- C5: a per-section densification failure (an exception from the
compression call, a `None` response, or a whitespace-only response)
substitutes the original section text for that section only; when
exactly one of the qualifying sections fails, the output slot of the
failing section holds its original text and every other qualifying
slot of every other qualifying section holds its compressed (stripped) text. -/
theorem densify_per_section_substitution
    (call : Nat → Except String (Option String))
    (sections : List (String × String)) (k : Nat) (h b e : String)
    (hk : sections[k]? = some (h, b))
    (hq : 100 ≤ b.length)
    (hfail : call k = Except.error e) :
    (densifyResults call sections)[k]? = some (sectionText h b)
    ∧ (∀ j h2 b2 r, sections[j]? = some (h2, b2) → 100 ≤ b2.length →
        call j = Except.ok (some r) → pyStrip r ≠ "" →
        (densifyResults call sections)[j]? = some (pyStrip r))
    ∧ (∀ h2 b2, densifySection (Except.error e) h2 b2 = sectionText h2 b2)
    ∧ (∀ h2 b2, densifySection (Except.ok none) h2 b2 = sectionText h2 b2)
    ∧ (∀ h2 b2 r, pyStrip r = "" →
        densifySection (Except.ok (some r)) h2 b2 = sectionText h2 b2) := by
  have hklt : k < sections.length := by
    by_contra hge
    rw [List.getElem?_eq_none (by omega)] at hk
    cases hk
  refine ⟨?_, ?_, fun _ _ => rfl, fun _ _ => rfl, ?_⟩
  · rw [densifyResults_getElem call sections k hklt,
      processSectionAt_eq call sections k h b hk]
    unfold processSection
    rw [if_neg (by omega), hfail]
    rfl
  · intro j h2 b2 r hj hq2 hcall hne
    have hjlt : j < sections.length := by
      by_contra hge
      rw [List.getElem?_eq_none (by omega)] at hj
      cases hj
    rw [densifyResults_getElem call sections j hjlt,
      processSectionAt_eq call sections j h2 b2 hj]
    unfold processSection
    rw [if_neg (by omega), hcall]
    show some (if pyStrip r ≠ "" then pyStrip r else sectionText h2 b2) = _
    rw [if_pos hne]
  · intro h2 b2 r hr
    show (if pyStrip r ≠ "" then pyStrip r else sectionText h2 b2)
      = sectionText h2 b2
    rw [if_neg (by simp [hr])]

theorem densify_per_section_substitution_witness :
    (densifyResults
        (fun i => if i = 0 then Except.error "rate limit"
          else Except.ok (some "B compressed"))
        [("# A", String.mk (List.replicate 100 'a')),
         ("# B", String.mk (List.replicate 100 'b'))])[0]?
      = some (sectionText "# A" (String.mk (List.replicate 100 'a')))
    ∧ (densifyResults
        (fun i => if i = 0 then Except.error "rate limit"
          else Except.ok (some "B compressed"))
        [("# A", String.mk (List.replicate 100 'a')),
         ("# B", String.mk (List.replicate 100 'b'))])[1]?
      = some (pyStrip "B compressed") := by
  constructor
  · exact (densify_per_section_substitution
      (fun i => if i = 0 then Except.error "rate limit"
        else Except.ok (some "B compressed"))
      [("# A", String.mk (List.replicate 100 'a')),
       ("# B", String.mk (List.replicate 100 'b'))]
      0 "# A" (String.mk (List.replicate 100 'a')) "rate limit"
      rfl (by decide) rfl).1
  · exact (densify_per_section_substitution
      (fun i => if i = 0 then Except.error "rate limit"
        else Except.ok (some "B compressed"))
      [("# A", String.mk (List.replicate 100 'a')),
       ("# B", String.mk (List.replicate 100 'b'))]
      0 "# A" (String.mk (List.replicate 100 'a')) "rate limit"
      rfl (by decide) rfl).2.1 1 "# B" (String.mk (List.replicate 100 'b'))
      "B compressed" rfl (by decide) rfl (by decide)

/-- C6: a section whose body is shorter than 100 characters never
reaches the compression capability (its index is not among the
dispatched call indices), its output is byte-identical to its input
section text (header and body unchanged), and its output does not
depend on the compression oracle at all. -/
theorem densify_short_section_skipped
    (call call2 : Nat → Except String (Option String))
    (sections : List (String × String)) (i : Nat) (h b : String)
    (hi : sections[i]? = some (h, b)) (hshort : b.length < 100) :
    (densifyResults call sections)[i]? = some (sectionText h b)
    ∧ i ∉ densifyCalls sections
    ∧ (densifyResults call sections)[i]?
        = (densifyResults call2 sections)[i]? := by
  have hilt : i < sections.length := by
    by_contra hge
    rw [List.getElem?_eq_none (by omega)] at hi
    cases hi
  have hres : ∀ c : Nat → Except String (Option String),
      (densifyResults c sections)[i]? = some (sectionText h b) := by
    intro c
    rw [densifyResults_getElem c sections i hilt,
      processSectionAt_eq c sections i h b hi]
    unfold processSection
    rw [if_pos hshort]
    rfl
  refine ⟨hres call, ?_, by rw [hres call, hres call2]⟩
  unfold densifyCalls
  intro hmem
  have := List.of_mem_filter hmem
  rw [hi] at this
  simp at this
  omega

theorem densify_short_section_skipped_witness :
    (densifyResults (fun _ => Except.ok (some "compressed"))
        [("# Intro", "short body")])[0]?
      = some (sectionText "# Intro" "short body")
    ∧ 0 ∉ densifyCalls [("# Intro", "short body")] := by
  have := densify_short_section_skipped
    (fun _ => Except.ok (some "compressed"))
    (fun _ => Except.error "other")
    [("# Intro", "short body")] 0 "# Intro" "short body" rfl (by decide)
  exact ⟨this.1, this.2.1⟩

/-- C10: with no Gemini credential, `convert_pdf_to_markdown` fails
immediately, dispatching no chunk conversion call, so a run whose
download succeeds ends `failed`; `densify_markdown` in the same
situation returns its input unchanged instead of failing. -/
theorem no_key_convert_fails_densify_passthrough
    (raw : Nat → Option String) (pages : List Nat) (md : String)
    (call : Nat → Except String (Option String))
    (download : Except String (List Nat))
    (densifyStage : String → Except String String)
    (store : String → String → Except String Unit) :
    convert_pdf_to_markdown none raw pages
      = (Except.error "No GEMINI_API_KEY set, cannot convert PDF", [])
    ∧ densify_markdown none call md = md
    ∧ (runPipeline download
        (fun pgs => (convert_pdf_to_markdown none raw pgs).1)
        densifyStage store).1.getLast? = some Status.failed
    ∧ (runPipeline download
        (fun pgs => (convert_pdf_to_markdown none raw pgs).1)
        densifyStage store).2 = none := by
  refine ⟨rfl, rfl, ?_, ?_⟩ <;>
    cases download <;> rfl

/-- C7 (amended): every section produced by `_split_by_headers` is a
raw header/body block of the document with its body whitespace-
stripped; concatenating the sections in order (headers inclusive,
joined by newlines) reconstructs the parent document exactly for
every document whose bodies carry no leading or trailing whitespace
(and no body is a single empty line); and content preceding the
first heading forms its own section with an empty header. -/
theorem split_reconstruct_upto_strip (md : String) :
    splitByHeaders md = (groupRaw (pySplitLines md)).map stripBlock
    ∧ ((∀ p ∈ groupRaw (pySplitLines md),
          pyStrip (pyJoin "\n" p.2) = pyJoin "\n" p.2 ∧ p.2 ≠ [""]) →
        reconstructSections (splitByHeaders md) = md)
    ∧ (∀ l, (pySplitLines md).head? = some l → isHeaderLine l = false →
        ∃ b rest, splitByHeaders md = ("", b) :: rest) := by
  have h1 : splitByHeaders md = (groupRaw (pySplitLines md)).map stripBlock :=
    splitByHeadersAux_eq_groupRawAux (pySplitLines md) "" []
  refine ⟨h1, ?_, ?_⟩
  · intro hclean
    rw [h1]
    unfold reconstructSections
    rw [List.map_map]
    have hpoint : List.map (sectionToText ∘ stripBlock)
        (groupRaw (pySplitLines md))
        = List.map (fun p => pyJoin "\n" (blockLines p))
          (groupRaw (pySplitLines md)) := by
      apply List.map_congr_left
      intro p hp
      exact sectionToText_stripBlock p (hclean p hp).1 (hclean p hp).2
    rw [hpoint]
    have hmapmap : List.map (fun p => pyJoin "\n" (blockLines p))
        (groupRaw (pySplitLines md))
        = List.map (pyJoin "\n")
          (List.map blockLines (groupRaw (pySplitLines md))) := by
      rw [List.map_map]
      rfl
    rw [hmapmap]
    rw [pyJoin_flatten _ (fun p hp => by
      obtain ⟨q, hq, hqe⟩ := List.mem_map.mp hp
      subst hqe
      exact blockLines_ne_nil q (groupRawAux_mem_guard (pySplitLines md) "" [] q hq))]
    have hblocks := groupRawAux_blockLines (pySplitLines md) "" []
    rw [if_pos ⟨rfl, rfl⟩] at hblocks
    unfold groupRaw
    rw [hblocks]
    simp only [List.nil_append]
    exact pyJoin_pySplitLines md
  · intro l hl hnh
    unfold splitByHeaders
    cases hlines : pySplitLines md with
    | nil =>
      rw [hlines] at hl
      cases hl
    | cons l0 rest =>
      rw [hlines] at hl
      have hl0 : l0 = l := by
        simp only [List.head?_cons, Option.some.injEq] at hl
        exact hl
      subst hl0
      simp only [splitByHeadersAux]
      rw [if_neg (by rw [hnh]; simp)]
      rw [splitByHeadersAux_eq_groupRawAux rest "" ([] ++ [l0])]
      obtain ⟨b2, rest2, heq⟩ :=
        groupRawAux_head rest "" ([] ++ [l0]) (Or.inr (by simp))
      rw [heq]
      exact ⟨pyStrip (pyJoin "\n" (([] ++ [l0]) ++ b2)),
        List.map stripBlock rest2, rfl⟩

theorem split_reconstruct_upto_strip_witness :
    reconstructSections (splitByHeaders "intro\n# T\nbody")
      = "intro\n# T\nbody"
    ∧ (∃ b rest, splitByHeaders "intro\n# T\nbody" = ("", b) :: rest) :=
  ⟨(split_reconstruct_upto_strip "intro\n# T\nbody").2.1 (by decide),
   (split_reconstruct_upto_strip "intro\n# T\nbody").2.2 "intro"
     (by decide) (by decide)⟩

/-- C7 counterexample to the claim as stated: for the document
`"x\n"` (one content line with a trailing newline), concatenating
the sections produced by `_split_by_headers` does not reconstruct
the parent document — the splitter strips each section body, so the
trailing newline is lost. -/
theorem split_reconstruct_counterexample :
    splitByHeaders "x\n" = [("", "x")]
    ∧ reconstructSections (splitByHeaders "x\n") ≠ "x\n" := by
  decide

end Constellations
